import Mathlib

/-!
Verification development for the elm.js size-attribution pipeline
(the analyse module: definition extraction, position translation through a
source map, range attribution, and report ranking).

Modelling conventions.  Program texts are lists of characters; offsets,
lines and columns are integers, matching JavaScript number arithmetic on
the values the program computes.  A JavaScript number that may be null
(the source-map consumer returns null line and column for an unmapped
position) is modelled as Option Int; jsNum is the coercion null to 0 that
JavaScript applies inside binary arithmetic.  The external parser and
minifier are collaborators: parsed syntax trees, the minified text and the
source-map consumer are taken as inputs, exactly as the analyse module
receives them.
-/

/-- The function rangeSize: rangeSize([start, end]) = end - start. -/
def rangeSize (r : Int × Int) : Int := r.2 - r.1

/-- JavaScript coercion of a possibly-null number inside arithmetic:
null becomes 0. -/
def jsNum (v : Option Int) : Int := v.getD 0

/-- rangeSize applied to a pair of possibly-null offsets, as JavaScript
evaluates end - start when one side may be null. -/
def rangeSizeJS (r : Option Int × Option Int) : Int := jsNum r.2 - jsNum r.1

/-- JavaScript String.prototype.slice(0, stop): a negative stop counts from
the end of the string, and stop is clamped to the length. -/
def jsSliceTo (s : List Char) (stop : Int) : List Char :=
  let len : Int := s.length
  let stop2 := if stop < 0 then max (len + stop) 0 else min stop len
  s.take stop2.toNat

/-- indexToLineColumn (analyse module): when right is true the index is
first decremented by one, then the text before the index is split on line
breaks; the line is 1-based (number of pieces) and the column is 0-based
(length of the last piece). -/
def indexToLineColumn (code : List Char) (index : Int) (right : Bool) : Int × Int :=
  let idx := if right then index - 1 else index
  let beforeSlice := jsSliceTo code idx
  let splat := beforeSlice.splitOn '\n'
  ((splat.length : Int), ((splat.getLast?.getD []).length : Int))

/-- A line and column position as returned by the source-map consumer. -/
structure Pos where
  line : Int
  column : Int
deriving DecidableEq

/-- The source-map consumer (external collaborator).  generatedPositionFor
returns none when the consumer yields a null line and column for the
queried original position; originalPositionFor is used only inside the
diagnostic output and takes the possibly-null generated position. -/
structure Consumer where
  generatedPositionFor : Int → Int → Option Pos
  originalPositionFor : Option Pos → Option Pos

/-- The per-run memoization table indexCache: an insertion-ordered
association list from the pre-decrement input offset to the computed
(possibly null) compressed offset. -/
abbrev Cache := List (Int × Option Int)

/-- Lookup in the memoization table (the JavaScript test index in indexCache). -/
def cacheLookup (cache : Cache) (i : Int) : Option (Option Int) :=
  (cache.find? (fun p => p.1 == i)).map (fun p => p.2)

/-- The loop of compressIndex that converts a generated line back to an
absolute offset: for lineNumber from 1 while lineNumber < line it adds
compressedSplat[lineNumber - 1].length + 1 (the +1 for the line break).
JavaScript would throw if line exceeded the number of generated lines; the
model totalises that outside case with take, and every theorem below stays
within range. -/
def lineOffsetSum (compressedSplat : List (List Char)) (line : Int) : Int :=
  (((compressedSplat.take (line - 1).toNat).map (fun l => (l.length : Int) + 1)).sum)

/-- The cache-miss computation of compressIndex: convert the (possibly
decremented) offset to line and column, query the consumer, and turn the
generated position into an absolute offset in the compressed text.  When
the consumer yields null the result stays null (the loop guard
lineNumber < null is false in JavaScript). -/
def compressIndexCore (code : List Char) (compressedSplat : List (List Char))
    (consumer : Consumer) (index : Int) (right : Bool) : Option Int :=
  let lc := indexToLineColumn code index right
  match consumer.generatedPositionFor lc.1 lc.2 with
  | none => none
  | some mapped => some (mapped.column + lineOffsetSum compressedSplat mapped.line)

/-- compressIndex (analyse module): with no consumer the offset is returned
unchanged; otherwise the cache is consulted under the pre-decrement offset,
and on a miss the computed value is stored under that offset.  Returns the
value together with the updated cache. -/
def compressIndex (code : List Char) (compressedSplat : List (List Char))
    (consumer : Option Consumer) (cache : Cache) (index : Int) (right : Bool) :
    Option Int × Cache :=
  match consumer with
  | none => (some index, cache)
  | some c =>
    match cacheLookup cache index with
    | some v => (v, cache)
    | none =>
      let v := compressIndexCore code compressedSplat c index right
      (v, (index, v) :: cache)

/-- A definition extracted from the unminified tree: its name and its
half-open character range. -/
structure Info where
  name : String
  range : Int × Int
deriving DecidableEq

/-- One endpoint entry of the diagnostic object logged by compressRange for
a cross-line negative range: the original line and column, the generated
position, and its round trip through originalPositionFor. -/
structure MappedDiag where
  line : Int
  column : Int
  mapped : Option Pos
  remapped : Option Pos
deriving DecidableEq

/-- The diagnostic object logged by compressRange for a cross-line negative
range: name, original range, both endpoint line and columns, both endpoint
mappings, and the computed compressed pair. -/
structure Diagnostic where
  name : String
  range : Int × Int
  lineColumn : List (Int × Int)
  mapped : List MappedDiag
  compressed : Option Int × Option Int
deriving DecidableEq

/-- One element of the mapped list in the diagnostic (the arrow function
inside the Console.log argument of compressRange). -/
def endpointDiag (code : List Char) (consumer : Consumer) (index : Int)
    (right : Bool) : MappedDiag :=
  let lc := indexToLineColumn code index right
  let generated := consumer.generatedPositionFor lc.1 lc.2
  { line := lc.1, column := lc.2, mapped := generated,
    remapped := consumer.originalPositionFor generated }

/-- The full diagnostic object built by compressRange before returning null
on a cross-line negative range. -/
def mkDiagnostic (code : List Char) (consumer : Consumer) (name : String)
    (range : Int × Int) (result : Option Int × Option Int) : Diagnostic :=
  { name := name, range := range,
    lineColumn := [indexToLineColumn code range.1 false,
                   indexToLineColumn code range.2 true],
    mapped := [endpointDiag code consumer range.1 false,
               endpointDiag code consumer range.2 true],
    compressed := result }

/-- Result of compressRange: the returned value (null or the compressed
pair), the cache after both endpoint translations, and the diagnostics
logged during the call. -/
structure CRResult where
  value : Option (Option Int × Option Int)
  cache : Cache
  logs : List Diagnostic

/-- compressRange (analyse module): translate the start with right = false
and the end with right = true.  If the resulting size is negative and both
original endpoints fall on the same line, the definition is an aliasing
declaration and null is returned silently; if they fall on different lines
a diagnostic is logged and null is returned; otherwise the pair is
returned.  The run is never aborted: every branch returns. -/
def compressRange (code : List Char) (compressedSplat : List (List Char))
    (consumer : Consumer) (cache : Cache) (info : Info) : CRResult :=
  let p1 := compressIndex code compressedSplat (some consumer) cache info.range.1 false
  let p2 := compressIndex code compressedSplat (some consumer) p1.2 info.range.2 true
  let result : Option Int × Option Int := (p1.1, p2.1)
  if rangeSizeJS result < 0 then
    if (indexToLineColumn code info.range.1 false).1 =
       (indexToLineColumn code info.range.2 true).1 then
      { value := none, cache := p2.2, logs := [] }
    else
      { value := none, cache := p2.2,
        logs := [mkDiagnostic code consumer info.name info.range result] }
  else
    { value := some result, cache := p2.2, logs := [] }

/-- The hardcoded relevance test of the report filter:
info.name.indexOf(a dollar sign) is at least 0. -/
def hasDollar (s : String) : Bool := s.data.contains '$'

/-- Binding pattern of a variable declarator: a plain identifier or any
other (destructuring) pattern. -/
inductive Pattern where
  | identifier (name : String)
  | otherPattern
deriving DecidableEq

/-- A single declarator of a variable declaration, with its own range. -/
structure Declarator where
  id : Pattern
  range : Int × Int
deriving DecidableEq

mutual
/-- Expressions of the parsed tree, restricted to the shapes the extractor
inspects. -/
inductive Expression where
  | callExpression (callee : Expression)
  | functionExpression (body : List Statement)
  | otherExpression

/-- Statements of the parsed tree, restricted to the shapes the extractor
inspects. -/
inductive Statement where
  | expressionStatement (expression : Expression)
  | functionDeclaration (name : String) (range : Int × Int)
  | variableDeclaration (declarations : List Declarator) (range : Int × Int)
  | otherStatement
end

/-- A parsed program: its top-level statement list and its full range. -/
structure Program where
  body : List Statement
  range : Int × Int

/-- The loop body of yieldElmJsStatements: one top-level statement
contributes the direct statements of the called function body when the
statement is an expression statement calling a function expression, and
nothing otherwise. -/
def enclosedStatements : Statement → List Statement
  | Statement.expressionStatement
      (Expression.callExpression (Expression.functionExpression body)) => body
  | _ => []

/-- yieldElmJsStatements: for every top-level statement that is an
expression statement calling a function expression, yield the direct
statements of that function body. -/
def yieldElmJsStatements (script : Program) : List Statement :=
  script.body.flatMap enclosedStatements

/-- yieldFunctionDeclarationInfo: a function declaration yields one info
with the function name and the full statement range. -/
def yieldFunctionDeclarationInfo (statement : Statement) : List Info :=
  match statement with
  | Statement.functionDeclaration name range => [{ name := name, range := range }]
  | _ => []

/-- yieldVariableDeclarationInfos: a variable declaration yields one info
per declarator whose binding is a plain identifier, with the declarator
range. -/
def yieldVariableDeclarationInfos (statement : Statement) : List Info :=
  match statement with
  | Statement.variableDeclaration declarations _ =>
    declarations.flatMap fun declaration =>
      match declaration.id with
      | Pattern.identifier name => [{ name := name, range := declaration.range }]
      | Pattern.otherPattern => []
  | _ => []

/-- yieldElmJsDefinitionInfos: for each statement of the enclosing
initializer bodies, the function-declaration info followed by the
variable-declaration infos. -/
def yieldElmJsDefinitionInfos (script : Program) : List Info :=
  (yieldElmJsStatements script).flatMap fun statement =>
    yieldFunctionDeclarationInfo statement ++ yieldVariableDeclarationInfos statement

/-- The filter step of process: for each info, compressRange is evaluated
first (populating the cache and possibly logging), then the info is kept
exactly when its name contains a dollar sign and the range is not null. -/
def filterInfos (code : List Char) (compressedSplat : List (List Char))
    (consumer : Consumer) : List Info → Cache → List Info × Cache × List Diagnostic
  | [], cache => ([], cache, [])
  | info :: rest, cache =>
    let r := compressRange code compressedSplat consumer cache info
    let fr := filterInfos code compressedSplat consumer rest r.cache
    (if hasDollar info.name && r.value.isSome then info :: fr.1 else fr.1,
     fr.2.1, r.logs ++ fr.2.2)

/-- Size of an info as the sort comparator and the report recompute it:
rangeSize of the two translated endpoints, read back through the (by then
fully populated) cache. -/
def infoSize (code : List Char) (compressedSplat : List (List Char))
    (consumer : Consumer) (cache : Cache) (info : Info) : Int :=
  rangeSizeJS ((compressIndex code compressedSplat (some consumer) cache info.range.1 false).1,
               (compressIndex code compressedSplat (some consumer) cache info.range.2 true).1)

/-- Stable insertion for the descending sort: x is placed before the first
element whose key is not greater, so earlier elements win ties. -/
def insertDesc (key : Info → Int) (x : Info) : List Info → List Info
  | [] => [x]
  | y :: ys => if key x < key y then y :: insertDesc key x ys else x :: y :: ys

/-- The stable descending sort modelling Array.prototype.sort with the
comparator sizeB - sizeA (ECMAScript sort is stable; ties keep their
original relative order, no secondary key). -/
def sortDesc (key : Info → Int) : List Info → List Info
  | [] => []
  | x :: xs => insertDesc key x (sortDesc key xs)

/-- The extraction-plus-filter prefix of process: extract the infos from
the parsed tree and run the report filter over them with an empty cache. -/
def retainedInfos (code : List Char) (parsed : Program) (compressedCode : List Char)
    (consumer : Consumer) : List Info × Cache × List Diagnostic :=
  filterInfos code (compressedCode.splitOn '\n') consumer
    (yieldElmJsDefinitionInfos parsed) []

/-- The report produced by one run of process: the ranked entries as
(name, size), the range sum, the compressed size, and the diagnostics. -/
structure RunResult where
  entries : List (String × Int)
  rangeSum : Int
  compressedSize : Int
  logs : List Diagnostic

/-- The body of process after the consumer null check: filter, stable sort
descending by size, report each entry, and sum the retained sizes. -/
def processRun (code : List Char) (parsed : Program) (compressedCode : List Char)
    (compressedRange : Int × Int) (consumer : Consumer) : RunResult :=
  let compressedSplat := compressedCode.splitOn '\n'
  let fr := retainedInfos code parsed compressedCode consumer
  let key := infoSize code compressedSplat consumer fr.2.1
  let sorted := sortDesc key fr.1
  { entries := sorted.map (fun i => (i.name, key i)),
    rangeSum := (sorted.map key).sum,
    compressedSize := rangeSize compressedRange,
    logs := fr.2.2 }

/-- process (analyse module): the very first statement after the log line
is consumer.computeColumnSpans(), executed before the compressedCode
default and before parsing; when the consumer is null this member access
throws a TypeError, so the run errors before anything else happens.  With
a consumer present the run proceeds as processRun.  compressedRange is the
range of the parsed compressed program (supplied by the external parser).
-/
def process (code : List Char) (parsed : Program) (compressedCode : Option (List Char))
    (compressedRange : Int × Int) (consumer : Option Consumer) :
    Except String RunResult :=
  match consumer with
  | none => Except.error ("TypeError: cannot read computeColumnSpans of null")
  | some c => Except.ok (processRun code parsed (compressedCode.getD code) compressedRange c)

/-- analyse with options.terser false: await process(code), so both the
compressedCode and the consumer take their null defaults; the compressed
program would be the code itself. -/
def analyseNoTerser (code : List Char) (parsed : Program) : Except String RunResult :=
  process code parsed none parsed.range none

/-- Cache extension order: every association present in the first cache is
present in the second. -/
def cacheLE (c1 c2 : Cache) : Prop :=
  ∀ i v, cacheLookup c1 i = some v → cacheLookup c2 i = some v

lemma cacheLE_refl (c : Cache) : cacheLE c c := fun _ _ h => h

lemma cacheLE_trans {a b c : Cache} (h1 : cacheLE a b) (h2 : cacheLE b c) :
    cacheLE a c := fun i v h => h2 i v (h1 i v h)

lemma cacheLookup_cons_self (i : Int) (v : Option Int) (cache : Cache) :
    cacheLookup ((i, v) :: cache) i = some v := by
  simp [cacheLookup]

lemma cacheLookup_cons_ne {i j : Int} (hne : ¬ i = j) (v : Option Int) (cache : Cache) :
    cacheLookup ((i, v) :: cache) j = cacheLookup cache j := by
  have hb : (i == j) = false := by simp [hne]
  simp [cacheLookup, List.find?, hb]

lemma compressIndex_hit {code : List Char} {splat : List (List Char)} {c : Consumer}
    {cache : Cache} {i : Int} {v : Option Int} (b : Bool)
    (h : cacheLookup cache i = some v) :
    compressIndex code splat (some c) cache i b = (v, cache) := by
  simp [compressIndex, h]

lemma compressIndex_miss {code : List Char} {splat : List (List Char)} {c : Consumer}
    {cache : Cache} {i : Int} (b : Bool)
    (h : cacheLookup cache i = none) :
    compressIndex code splat (some c) cache i b =
      (compressIndexCore code splat c i b,
       (i, compressIndexCore code splat c i b) :: cache) := by
  simp [compressIndex, h]

lemma compressIndex_caches {code : List Char} {splat : List (List Char)} {c : Consumer}
    {cache : Cache} {i : Int} {b : Bool} {v : Option Int} {c2 : Cache}
    (h : compressIndex code splat (some c) cache i b = (v, c2)) :
    cacheLookup c2 i = some v := by
  rcases hl : cacheLookup cache i with _ | w
  · rw [compressIndex_miss b hl] at h
    obtain ⟨hv, hc⟩ := Prod.mk.injEq .. ▸ h
    subst hc
    rw [← hv]
    exact cacheLookup_cons_self ..
  · rw [compressIndex_hit b hl] at h
    obtain ⟨hv, hc⟩ := Prod.mk.injEq .. ▸ h
    subst hc; subst hv
    exact hl

lemma compressIndex_le {code : List Char} {splat : List (List Char)} {c : Consumer}
    {cache : Cache} {i : Int} {b : Bool} {v : Option Int} {c2 : Cache}
    (h : compressIndex code splat (some c) cache i b = (v, c2)) :
    cacheLE cache c2 := by
  rcases hl : cacheLookup cache i with _ | w
  · rw [compressIndex_miss b hl] at h
    obtain ⟨hv, hc⟩ := Prod.mk.injEq .. ▸ h
    subst hc
    intro j w2 hj
    have hne : ¬ i = j := by
      intro he; subst he; rw [hj] at hl; cases hl
    rw [cacheLookup_cons_ne hne]
    exact hj
  · rw [compressIndex_hit b hl] at h
    obtain ⟨hv, hc⟩ := Prod.mk.injEq .. ▸ h
    subst hc
    exact cacheLE_refl cache

lemma compressIndex_stable {code : List Char} {splat : List (List Char)} {c : Consumer}
    {cache : Cache} {i : Int} {b : Bool} {v : Option Int} {c2 c3 : Cache}
    (h : compressIndex code splat (some c) cache i b = (v, c2))
    (hle : cacheLE c2 c3) (b2 : Bool) :
    compressIndex code splat (some c) c3 i b2 = (v, c3) :=
  compressIndex_hit b2 (hle _ _ (compressIndex_caches h))

lemma compressRange_eq (code : List Char) (splat : List (List Char)) (c : Consumer)
    (cache : Cache) (info : Info) (s e : Option Int) (c1 c2 : Cache)
    (h1 : compressIndex code splat (some c) cache info.range.1 false = (s, c1))
    (h2 : compressIndex code splat (some c) c1 info.range.2 true = (e, c2)) :
    compressRange code splat c cache info =
      if rangeSizeJS (s, e) < 0 then
        if (indexToLineColumn code info.range.1 false).1 =
           (indexToLineColumn code info.range.2 true).1 then
          { value := none, cache := c2, logs := [] }
        else
          { value := none, cache := c2,
            logs := [mkDiagnostic code c info.name info.range (s, e)] }
      else
        { value := some (s, e), cache := c2, logs := [] } := by
  simp only [compressRange, h1, h2]

lemma compressRange_le (code : List Char) (splat : List (List Char)) (c : Consumer)
    (cache : Cache) (info : Info) :
    cacheLE cache (compressRange code splat c cache info).cache := by
  obtain ⟨s, c1, h1⟩ : ∃ s c1,
      compressIndex code splat (some c) cache info.range.1 false = (s, c1) := ⟨_, _, rfl⟩
  obtain ⟨e, c2, h2⟩ : ∃ e c2,
      compressIndex code splat (some c) c1 info.range.2 true = (e, c2) := ⟨_, _, rfl⟩
  have hle := cacheLE_trans (compressIndex_le h1) (compressIndex_le h2)
  rw [compressRange_eq code splat c cache info s e c1 c2 h1 h2]
  split
  · split <;> exact hle
  · exact hle

lemma compressRange_retained {code : List Char} {splat : List (List Char)} {c : Consumer}
    {cache : Cache} {info : Info}
    (h : ((compressRange code splat c cache info).value).isSome = true) :
    ∃ s e, cacheLookup (compressRange code splat c cache info).cache info.range.1 = some s ∧
           cacheLookup (compressRange code splat c cache info).cache info.range.2 = some e ∧
           0 ≤ rangeSizeJS (s, e) := by
  obtain ⟨s, c1, h1⟩ : ∃ s c1,
      compressIndex code splat (some c) cache info.range.1 false = (s, c1) := ⟨_, _, rfl⟩
  obtain ⟨e, c2, h2⟩ : ∃ e c2,
      compressIndex code splat (some c) c1 info.range.2 true = (e, c2) := ⟨_, _, rfl⟩
  rw [compressRange_eq code splat c cache info s e c1 c2 h1 h2] at h ⊢
  by_cases hneg : rangeSizeJS (s, e) < 0
  · rw [if_pos hneg] at h
    split at h <;> cases h
  · rw [if_neg hneg] at h ⊢
    refine ⟨s, e, ?_, ?_, le_of_not_lt hneg⟩
    · exact (compressIndex_le h2) _ _ (compressIndex_caches h1)
    · exact compressIndex_caches h2

lemma infoSize_of_lookups {code : List Char} {splat : List (List Char)} {c : Consumer}
    {cache : Cache} {info : Info} {s e : Option Int}
    (hs : cacheLookup cache info.range.1 = some s)
    (he : cacheLookup cache info.range.2 = some e) :
    infoSize code splat c cache info = rangeSizeJS (s, e) := by
  simp [infoSize, compressIndex_hit false hs, compressIndex_hit true he]

lemma filterInfos_spec (code : List Char) (splat : List (List Char)) (c : Consumer) :
    ∀ (infos : List Info) (cache : Cache),
      cacheLE cache (filterInfos code splat c infos cache).2.1 ∧
      ∀ info ∈ (filterInfos code splat c infos cache).1,
        hasDollar info.name = true ∧
        0 ≤ infoSize code splat c (filterInfos code splat c infos cache).2.1 info := by
  intro infos
  induction infos with
  | nil =>
    intro cache
    refine ⟨cacheLE_refl _, ?_⟩
    intro info h
    simp [filterInfos] at h
  | cons info rest ih =>
    intro cache
    have hunfold : filterInfos code splat c (info :: rest) cache =
        (if hasDollar info.name &&
            (compressRange code splat c cache info).value.isSome then
           info :: (filterInfos code splat c rest
             (compressRange code splat c cache info).cache).1
         else (filterInfos code splat c rest
             (compressRange code splat c cache info).cache).1,
         (filterInfos code splat c rest
             (compressRange code splat c cache info).cache).2.1,
         (compressRange code splat c cache info).logs ++
           (filterInfos code splat c rest
             (compressRange code splat c cache info).cache).2.2) := by
      simp only [filterInfos]
    obtain ⟨ihle, ihmem⟩ := ih (compressRange code splat c cache info).cache
    have hle : cacheLE cache
        (filterInfos code splat c (info :: rest) cache).2.1 := by
      rw [hunfold]
      exact cacheLE_trans (compressRange_le code splat c cache info) ihle
    refine ⟨hle, ?_⟩
    intro j hj
    rw [hunfold] at hj
    by_cases hcond : hasDollar info.name &&
        (compressRange code splat c cache info).value.isSome
    · rw [if_pos hcond] at hj
      rcases List.mem_cons.mp hj with rfl | hj2
      · obtain ⟨hdollar, hsome⟩ := Bool.and_eq_true_iff.mp hcond
        obtain ⟨s, e, hs, he, hnn⟩ := compressRange_retained hsome
        refine ⟨hdollar, ?_⟩
        have hs2 := ihle _ _ hs
        have he2 := ihle _ _ he
        rw [hunfold]
        rw [infoSize_of_lookups hs2 he2]
        exact hnn
      · obtain ⟨hd, hsz⟩ := ihmem j hj2
        refine ⟨hd, ?_⟩
        rw [hunfold]
        exact hsz
    · rw [if_neg hcond] at hj
      obtain ⟨hd, hsz⟩ := ihmem j hj
      refine ⟨hd, ?_⟩
      rw [hunfold]
      exact hsz

lemma mem_insertDesc {key : Info → Int} {x : Info} {l : List Info} :
    ∀ z ∈ insertDesc key x l, z = x ∨ z ∈ l := by
  induction l with
  | nil =>
    intro z hz
    simp [insertDesc] at hz
    left; exact hz
  | cons y ys ih =>
    intro z hz
    by_cases h : key x < key y
    · rw [insertDesc, if_pos h] at hz
      rcases List.mem_cons.mp hz with rfl | hz2
      · right; exact List.mem_cons_self ..
      · rcases ih z hz2 with h2 | h2
        · left; exact h2
        · right; exact List.mem_cons_of_mem y h2
    · rw [insertDesc, if_neg h] at hz
      rcases List.mem_cons.mp hz with rfl | hz2
      · left; rfl
      · right; exact hz2

lemma pairwise_insertDesc {key : Info → Int} (x : Info) {l : List Info}
    (h : l.Pairwise (fun a b => key b ≤ key a)) :
    (insertDesc key x l).Pairwise (fun a b => key b ≤ key a) := by
  induction l with
  | nil => simp [insertDesc]
  | cons y ys ih =>
    obtain ⟨hy, hys⟩ := List.pairwise_cons.mp h
    by_cases hlt : key x < key y
    · rw [insertDesc, if_pos hlt]
      refine List.pairwise_cons.mpr ⟨?_, ih hys⟩
      intro z hz
      rcases mem_insertDesc z hz with rfl | hz2
      · exact le_of_lt hlt
      · exact hy z hz2
    · rw [insertDesc, if_neg hlt]
      refine List.pairwise_cons.mpr ⟨?_, h⟩
      intro z hz
      rcases List.mem_cons.mp hz with rfl | hz2
      · exact le_of_not_lt hlt
      · exact le_trans (hy z hz2) (le_of_not_lt hlt)

lemma pairwise_sortDesc (key : Info → Int) (l : List Info) :
    (sortDesc key l).Pairwise (fun a b => key b ≤ key a) := by
  induction l with
  | nil => simp [sortDesc]
  | cons x xs ih => exact pairwise_insertDesc x ih

lemma mem_sortDesc {key : Info → Int} {l : List Info} :
    ∀ z ∈ sortDesc key l, z ∈ l := by
  induction l with
  | nil => intro z hz; simp [sortDesc] at hz
  | cons x xs ih =>
    intro z hz
    rw [sortDesc] at hz
    rcases mem_insertDesc z hz with rfl | hz2
    · exact List.mem_cons_self ..
    · exact List.mem_cons_of_mem x (ih z hz2)

lemma filter_insertDesc (key : Info → Int) (x : Info) (l : List Info) (k : Int) :
    (insertDesc key x l).filter (fun a => key a == k) =
      if key x == k then x :: l.filter (fun a => key a == k)
      else l.filter (fun a => key a == k) := by
  induction l with
  | nil =>
    rw [insertDesc]
    by_cases hx : (key x == k) = true
    · simp [hx]
    · simp [hx]
  | cons y ys ih =>
    by_cases hlt : key x < key y
    · rw [insertDesc, if_pos hlt, List.filter_cons, List.filter_cons]
      by_cases hy : (key y == k) = true
      · have hx : ¬ (key x == k) = true := by
          intro hx
          have h1 : key y = k := by simpa using hy
          have h2 : key x = k := by simpa using hx
          rw [h1] at hlt
          rw [h2] at hlt
          exact lt_irrefl k hlt
        rw [if_pos hy, if_pos hy, ih, if_neg hx, if_neg hx]
      · rw [if_neg hy, if_neg hy, ih]
    · rw [insertDesc, if_neg hlt]
      rw [List.filter_cons]

lemma filter_sortDesc (key : Info → Int) (l : List Info) (k : Int) :
    (sortDesc key l).filter (fun a => key a == k) = l.filter (fun a => key a == k) := by
  induction l with
  | nil => rfl
  | cons x xs ih =>
    rw [sortDesc, filter_insertDesc, List.filter_cons]
    by_cases hx : (key x == k) = true
    · rw [if_pos hx, if_pos hx, ih]
    · rw [if_neg hx, if_neg hx, ih]

/-- Recognition of the enclosing-initializer shape: an expression statement
whose expression is a call whose callee is a function expression. -/
def isEnclosingInitializer : Statement → Bool
  | Statement.expressionStatement
      (Expression.callExpression (Expression.functionExpression _)) => true
  | _ => false

/-- Claim-side characterization of the definitions one statement of the
initializer body yields: one Info for a function declaration (function
name, full statement range), one Info per directly-bound identifier of a
variable declaration (that declarator's own range, destructured patterns
excluded), nothing for any other statement kind. -/
def specDefsOfStatement : Statement → List Info
  | Statement.functionDeclaration name range => [{ name := name, range := range }]
  | Statement.variableDeclaration declarations _ =>
    declarations.flatMap fun d =>
      match d.id with
      | Pattern.identifier name => [{ name := name, range := d.range }]
      | Pattern.otherPattern => []
  | _ => []

lemma initializer_statements_nil {s : Statement}
    (h : isEnclosingInitializer s = false) :
    enclosedStatements s = ([] : List Statement) := by
  cases s with
  | expressionStatement e =>
    cases e with
    | callExpression callee =>
      cases callee with
      | functionExpression body => simp [isEnclosingInitializer] at h
      | callExpression c2 => rfl
      | otherExpression => rfl
    | functionExpression b => rfl
    | otherExpression => rfl
  | functionDeclaration n r => rfl
  | variableDeclaration d r => rfl
  | otherStatement => rfl

lemma yieldElmJsStatements_all_nil {l : List Statement} {r : Int × Int}
    (h : ∀ s ∈ l, isEnclosingInitializer s = false) :
    yieldElmJsStatements { body := l, range := r } = [] := by
  induction l with
  | nil => rfl
  | cons s rest ih =>
    rw [yieldElmJsStatements] at ih ⊢
    rw [List.flatMap_cons]
    rw [initializer_statements_nil (h s (List.mem_cons_self ..))]
    rw [List.nil_append]
    exact ih fun t ht => h t (List.mem_cons_of_mem s ht)

lemma per_statement_defs (s : Statement) :
    yieldFunctionDeclarationInfo s ++ yieldVariableDeclarationInfos s =
      specDefsOfStatement s := by
  cases s with
  | expressionStatement e => rfl
  | functionDeclaration n r => rfl
  | variableDeclaration d r => rfl
  | otherStatement => rfl

/-- An identity position-mapping table: every original position maps to the
same generated position. -/
def idConsumer : Consumer :=
  { generatedPositionFor := fun line col => some { line := line, column := col },
    originalPositionFor := fun p => p }

/-- The unminified text of the first end-to-end scenario: the declaration
function greet with empty parameter list and empty body (18 characters,
one line); the scenario stipulates the source range [0, 19). -/
def greetCode : List Char := ("function greet()\x7b\x7d").data

/-- The parsed tree of the first end-to-end scenario: one enclosing
initializer whose body is exactly the function declaration greet with the
stipulated range. -/
def greetProgram : Program :=
  { body := [Statement.expressionStatement (Expression.callExpression
      (Expression.functionExpression
        [Statement.functionDeclaration ("greet") ((0 : Int), (19 : Int))]))],
    range := ((0 : Int), (19 : Int)) }

/-- The run of the first end-to-end scenario: unminified text equal to the
minified text and the identity mapping table. -/
def greetRun : RunResult := processRun greetCode greetProgram greetCode (0, 19) idConsumer

/-- A two-line text used by the memoization claims. -/
def code2 : List Char := ("ab").data

/-- The compressed line list of code2. -/
def splat2 : List (List Char) := [("ab").data]

/-- A ten-character one-line unminified text. -/
def code10 : List Char := ("abcdefghij").data

/-- A compressed line list with a single six-character line. -/
def splatU : List (List Char) := [("abcdef").data]

/-- A mapping table with no entry for the position of offset 0 (line 1,
column 0 is unmapped) and an entry for line 1 column 9. -/
def unmappedConsumer : Consumer :=
  { generatedPositionFor := fun line col =>
      if line == 1 && col == 9 then some { line := 1, column := 5 } else none,
    originalPositionFor := fun p => p }

/-- A program whose initializer holds one definition named with a dollar
sign covering the whole ten-character text. -/
def prog4 : Program :=
  { body := [Statement.expressionStatement (Expression.callExpression
      (Expression.functionExpression
        [Statement.functionDeclaration ("a$") ((0 : Int), (10 : Int))]))],
    range := ((0 : Int), (10 : Int)) }

/-- The run with an unmapped start endpoint. -/
def unmappedRun : RunResult := processRun code10 prog4 (("abcdef").data) (0, 6) unmappedConsumer

/-- A mapping table that maps line 1 column 0 after line 1 column 9
(a decreasing mapping), producing a negative translated range. -/
def decConsumer : Consumer :=
  { generatedPositionFor := fun line col =>
      if line == 1 && col == 0 then some { line := 1, column := 5 }
      else if line == 1 && col == 9 then some { line := 1, column := 0 } else none,
    originalPositionFor := fun p => p }

/-- A twenty-character one-line unminified text. -/
def code20 : List Char := (String.mk (List.replicate 20 ('a'))).data

/-- A five-character minified text. -/
def ccode5 : List Char := ("abcde").data

/-- A mapping table sending two disjoint original ranges onto the same
five-character generated range. -/
def overlapConsumer : Consumer :=
  { generatedPositionFor := fun line col =>
      if line == 1 && col == 0 then some { line := 1, column := 0 }
      else if line == 1 && col == 9 then some { line := 1, column := 4 }
      else if line == 1 && col == 11 then some { line := 1, column := 0 }
      else if line == 1 && col == 19 then some { line := 1, column := 4 }
      else none,
    originalPositionFor := fun p => p }

/-- A program with two dollar-named definitions on disjoint ranges
separated by one character. -/
def prog2A : Program :=
  { body := [Statement.expressionStatement (Expression.callExpression
      (Expression.functionExpression
        [Statement.functionDeclaration ("a$") ((0 : Int), (10 : Int)),
         Statement.functionDeclaration ("b$") ((11 : Int), (20 : Int))]))],
    range := ((0 : Int), (20 : Int)) }

/-- The run whose attributed sizes overlap in the generated text. -/
def overlapRun : RunResult := processRun code20 prog2A ccode5 (0, 5) overlapConsumer

/-- A program with no enclosing initializer: a top-level control statement
and a top-level function declaration outside any initializer. -/
def progNone : Program :=
  { body := [Statement.otherStatement,
             Statement.functionDeclaration ("f") ((0 : Int), (5 : Int))],
    range := ((0 : Int), (9 : Int)) }

/-- A two-line unminified text (two characters, a line break, two more
characters), so that a range can start on line 1 and end on line 2. -/
def codeNL : List Char := ("ab\ncd").data

/-- A mapping table that sends the two original endpoint positions of the
range [0, 5) of codeNL - line 1 column 0 and line 2 column 1 - onto the
SAME generated line 1, with decreasing columns, so the translated size is
negative while the translated endpoints share a generated line. -/
def crossConsumer : Consumer :=
  { generatedPositionFor := fun line col =>
      if line == 1 && col == 0 then some { line := 1, column := 5 }
      else if line == 2 && col == 1 then some { line := 1, column := 0 } else none,
    originalPositionFor := fun p => p }

/-- C1.  Counterexample to the end-to-end claim: for the stipulated input
(one function declaration greet with range [0, 19) inside the enclosing
initializer, identity mapping table) the Attributor yields the compressed
pair (0, 18) - size 18, not 19, because the Right-boundary translation maps
the decremented offset and never restores the exclusive end - and the
Report is empty (length 0, not 1), because the hardcoded relevance filter
drops the name greet, which contains no dollar sign. -/
theorem C1_end_to_end_counterexample :
    greetRun.entries = [] ∧
    (compressRange greetCode [greetCode] idConsumer []
      { name := ("greet"), range := (0, 19) }).value = some (some 0, some 18) ∧
    ¬ greetRun.entries.length = 1 := by decide

/-- C1 (amended).  For the stipulated input the Extractor yields exactly
one Definition named greet with range [0, 19); the Attributor yields an
AttributedRange of size 18 (the Right-boundary decrement is not
compensated after the identity mapping); and the Report contains no
entries and attributes no size, because the hardcoded filter retains only
names containing a dollar sign. -/
theorem C1_end_to_end_amended :
    yieldElmJsDefinitionInfos greetProgram = [{ name := ("greet"), range := (0, 19) }] ∧
    rangeSizeJS ((compressRange greetCode [greetCode] idConsumer []
      { name := ("greet"), range := (0, 19) }).value.getD (none, none)) = 18 ∧
    greetRun.entries = [] ∧ greetRun.rangeSum = 0 := by decide

/-- C2.  Counterexample to per-boundary purity of the memoized translator:
with the identity mapping table, after offset 1 has been queried with the
Left boundary, querying the same offset with the Right boundary returns
the cached Left value, which differs from the un-memoized translation of
the (1, Right) pair. -/
theorem C2_memoization_counterexample :
    (compressIndex code2 splat2 (some idConsumer)
        ((compressIndex code2 splat2 (some idConsumer) [] 1 false).2) 1 true).1 ≠
      compressIndexCore code2 splat2 idConsumer 1 true := by decide

/-- C2 (amended).  The cache is keyed by the pre-decrement offset alone:
the first query at an offset returns exactly the un-memoized translation
of its own (offset, boundary) pair, and every later query at that offset -
with either boundary mode - returns that first cached value; hence the
memoized translator agrees with the un-memoized translation of a pair
exactly when the pair's boundary matches the offset's first query (in
particular whenever each offset is queried under a single boundary mode
throughout the run). -/
theorem C2_memoization_amended (code : List Char) (splat : List (List Char))
    (c : Consumer) (cache : Cache) (i : Int) (b : Bool) (v : Option Int) (c2 : Cache)
    (hmiss : cacheLookup cache i = none)
    (h : compressIndex code splat (some c) cache i b = (v, c2)) :
    v = compressIndexCore code splat c i b ∧
    (compressIndex code splat (some c) c2 i true).1 = v ∧
    (compressIndex code splat (some c) c2 i false).1 = v := by
  have h1 := compressIndex_stable h (cacheLE_refl c2) true
  have h2 := compressIndex_stable h (cacheLE_refl c2) false
  rw [compressIndex_miss b hmiss] at h
  obtain ⟨hv, hc⟩ := Prod.mk.injEq .. ▸ h
  exact ⟨hv.symm, by rw [h1], by rw [h2]⟩

/-- C2 (witness).  The amended statement at a concrete input: offset 1 of
the two-character text, first queried with the Left boundary. -/
theorem C2_memoization_amended_witness :
    (some (1 : Int) : Option Int) = compressIndexCore code2 splat2 idConsumer 1 false ∧
    (compressIndex code2 splat2 (some idConsumer) [((1 : Int), some (1 : Int))] 1 true).1 =
      some 1 ∧
    (compressIndex code2 splat2 (some idConsumer) [((1 : Int), some (1 : Int))] 1 false).1 =
      some 1 :=
  C2_memoization_amended code2 splat2 idConsumer [] 1 false (some 1)
    [((1 : Int), some (1 : Int))] (by decide) (by decide)

/-- C3.  Counterexample to the negative-range policy as claimed: the claim
discriminates aliasing by the translated endpoints sharing a GENERATED
line, but the code compares the ORIGINAL unminified-text lines of start
and of end minus one.  The two readings diverge on this input: the range
[0, 5) of the two-line text codeNL has original endpoint positions (1, 0)
and (2, 1), which crossConsumer sends to the same generated line 1 with a
negative size (5 then 0) - per the claim a silent aliasing discard - yet
the code, seeing different original lines, logs a diagnostic. -/
theorem C3_negative_range_counterexample :
    indexToLineColumn codeNL 0 false = (1, 0) ∧
    indexToLineColumn codeNL 5 true = (2, 1) ∧
    crossConsumer.generatedPositionFor 1 0 = some { line := 1, column := 5 } ∧
    crossConsumer.generatedPositionFor 2 1 = some { line := 1, column := 0 } ∧
    (compressRange codeNL splatU crossConsumer []
      { name := ("y$"), range := (0, 5) }).value = none ∧
    ¬ (compressRange codeNL splatU crossConsumer []
      { name := ("y$"), range := (0, 5) }).logs = [] := by decide

/-- C3 (amended).  Negative-range policy of the Range Attributor: whenever
the two translated endpoints give a negative size, compressRange returns
null (the value is none, never an exception or an abort); the
discrimination is on the ORIGINAL unminified-text lines of the two
endpoints (start, and end minus one), not on the translated generated
lines: if both original endpoints fall on the same line nothing is logged
(pure aliasing), and if they fall on different lines exactly one
diagnostic is logged, built by mkDiagnostic from the definition's name,
its original range and both endpoint mappings. -/
theorem C3_negative_range_policy (code : List Char) (splat : List (List Char))
    (c : Consumer) (cache : Cache) (info : Info) (s1 e1 : Option Int) (c1 c2 : Cache)
    (h1 : compressIndex code splat (some c) cache info.range.1 false = (s1, c1))
    (h2 : compressIndex code splat (some c) c1 info.range.2 true = (e1, c2))
    (hneg : rangeSizeJS (s1, e1) < 0) :
    (compressRange code splat c cache info).value = none ∧
    (compressRange code splat c cache info).logs =
      (if (indexToLineColumn code info.range.1 false).1 =
          (indexToLineColumn code info.range.2 true).1
       then [] else [mkDiagnostic code c info.name info.range (s1, e1)]) := by
  rw [compressRange_eq code splat c cache info s1 e1 c1 c2 h1 h2, if_pos hneg]
  by_cases hline : (indexToLineColumn code info.range.1 false).1 =
      (indexToLineColumn code info.range.2 true).1
  · rw [if_pos hline, if_pos hline]
    exact ⟨rfl, rfl⟩
  · rw [if_neg hline, if_neg hline]
    exact ⟨rfl, rfl⟩

/-- C3 (witness).  The policy at a concrete input: a decreasing mapping
table sends the range [0, 10) to the negative compressed pair (5, 0); both
endpoints are on line 1, so the value is null and nothing is logged. -/
theorem C3_negative_range_policy_witness :
    (compressRange code10 splatU decConsumer []
      { name := ("x$"), range := (0, 10) }).value = none ∧
    (compressRange code10 splatU decConsumer []
      { name := ("x$"), range := (0, 10) }).logs =
      (if (indexToLineColumn code10 0 false).1 = (indexToLineColumn code10 10 true).1
       then []
       else [mkDiagnostic code10 decConsumer ("x$") (0, 10) (some 5, some 0)]) :=
  C3_negative_range_policy code10 splatU decConsumer [] { name := ("x$"), range := (0, 10) }
    (some 5) (some 0) [((0 : Int), some (5 : Int))]
    [((10 : Int), some (0 : Int)), ((0 : Int), some (5 : Int))]
    (by decide) (by decide) (by decide)

/-- C4.  Counterexample to the unmapped-position policy: with a mapping
table that cannot map the start endpoint of the only definition (line 1
column 0 is unmapped) the definition is not discarded - the null
translation is coerced to 0 by the size arithmetic and the definition
appears in the Report with size 5. -/
theorem C4_unmapped_counterexample :
    unmappedConsumer.generatedPositionFor 1 0 = none ∧
    unmappedRun.entries = [(("a$" : String), (5 : Int))] ∧
    ¬ unmappedRun.entries = [] := by decide

/-- C4 (amended).  When the mapping table yields no result for a
definition's start endpoint, the Translator returns a null result without
throwing, but the Range Attributor does not treat null as discardable: the
null is coerced to 0 inside the size arithmetic, and whenever the
resulting size is non-negative the definition is retained with the
compressed pair (null, end). -/
theorem C4_unmapped_amended (code : List Char) (splat : List (List Char)) (c : Consumer)
    (cache : Cache) (info : Info) (v2 : Option Int) (c2 : Cache)
    (hmap : c.generatedPositionFor (indexToLineColumn code info.range.1 false).1
        (indexToLineColumn code info.range.1 false).2 = none)
    (hmiss : cacheLookup cache info.range.1 = none)
    (h2 : compressIndex code splat (some c)
        ((info.range.1, (none : Option Int)) :: cache) info.range.2 true = (v2, c2))
    (hnn : 0 ≤ jsNum v2) :
    (compressIndex code splat (some c) cache info.range.1 false).1 = none ∧
    (compressRange code splat c cache info).value = some (none, v2) := by
  have hcore : compressIndexCore code splat c info.range.1 false = none := by
    simp only [compressIndexCore, hmap]
  have h1 : compressIndex code splat (some c) cache info.range.1 false =
      (none, (info.range.1, (none : Option Int)) :: cache) := by
    rw [compressIndex_miss false hmiss, hcore]
  refine ⟨by rw [h1], ?_⟩
  rw [compressRange_eq code splat c cache info none v2 _ c2 h1 h2]
  rw [if_neg (show ¬ rangeSizeJS (none, v2) < 0 by
    show ¬ jsNum v2 - jsNum none < 0
    have hz : jsNum (none : Option Int) = 0 := rfl
    rw [hz]
    omega)]

/-- C4 (witness).  The amended statement at a concrete input: start of the
range [0, 10) unmapped, end mapped to offset 5; the definition is retained
with the pair (null, 5). -/
theorem C4_unmapped_amended_witness :
    (compressIndex code10 splatU (some unmappedConsumer) [] 0 false).1 = none ∧
    (compressRange code10 splatU unmappedConsumer []
      { name := ("a$"), range := (0, 10) }).value = some (none, some 5) :=
  C4_unmapped_amended code10 splatU unmappedConsumer []
    { name := ("a$"), range := (0, 10) } (some 5)
    [((10 : Int), some (5 : Int)), ((0 : Int), (none : Option Int))]
    (by decide) (by decide) (by decide) (by decide)

/-- C5.  Code bug relative to the claim: for every invocation of analyse
with options.terser false, process is entered with a null consumer and
immediately dereferences it (consumer.computeColumnSpans()), so the run
errors instead of completing - even though the translator itself contains
the intended identity path, returning every offset unchanged when no
consumer is present. -/
theorem C5_no_terser_crash (code : List Char) (parsed : Program) :
    analyseNoTerser code parsed =
      Except.error ("TypeError: cannot read computeColumnSpans of null") ∧
    ∀ (splat : List (List Char)) (cache : Cache) (i : Int) (b : Bool),
      (compressIndex code splat none cache i b).1 = some i := by
  refine ⟨rfl, ?_⟩
  intro splat cache i b
  rfl

/-- C6.  Counterexample to the coverage upper bound: a run in which two
disjoint original definitions are mapped onto the same generated range has
attributedSize 8 while the full minified extent is 5, so attributedSize
exceeds totalMinifiedSize. -/
theorem C6_coverage_counterexample :
    overlapRun.rangeSum = 8 ∧ overlapRun.compressedSize = 5 ∧
    ¬ overlapRun.rangeSum ≤ overlapRun.compressedSize := by decide

/-- C6 (amended).  The lower bound holds for every run: the attributed sum
ranges only over retained definitions, each of which passed the
non-negative size test of the Range Attributor, so 0 is at most
attributedSize; the upper bound by totalMinifiedSize is not enforced
anywhere and can be exceeded when translated ranges overlap. -/
theorem C6_coverage_amended (code : List Char) (parsed : Program)
    (compressedCode : List Char) (compressedRange : Int × Int) (consumer : Consumer) :
    0 ≤ (processRun code parsed compressedCode compressedRange consumer).rangeSum := by
  have hspec := (filterInfos_spec code (compressedCode.splitOn '\n') consumer
      (yieldElmJsDefinitionInfos parsed) []).2
  simp only [processRun, retainedInfos]
  refine List.sum_nonneg ?_
  intro x hx
  obtain ⟨i, hi, rfl⟩ := List.mem_map.mp hx
  exact (hspec i (mem_sortDesc i hi)).2

/-- C7.  Sort correctness and stability: in every produced Report adjacent
entries are in non-increasing size order, and for every size the entries
of that size appear exactly in their pre-sort (extraction) relative order,
since the stable sort uses the size alone as key. -/
theorem C7_sort_correct_stable (code : List Char) (parsed : Program)
    (compressedCode : List Char) (compressedRange : Int × Int) (consumer : Consumer) :
    List.Chain' (fun A B => B.2 ≤ A.2)
      (processRun code parsed compressedCode compressedRange consumer).entries ∧
    ∀ k : Int,
      (processRun code parsed compressedCode compressedRange consumer).entries.filter
          (fun e => e.2 == k) =
        ((retainedInfos code parsed compressedCode consumer).1.map
          (fun i => (i.name, infoSize code (compressedCode.splitOn '\n') consumer
            (retainedInfos code parsed compressedCode consumer).2.1 i))).filter
          (fun e => e.2 == k) := by
  constructor
  · simp only [processRun]
    refine List.Pairwise.chain' ?_
    refine List.pairwise_map.mpr ?_
    exact pairwise_sortDesc _ _
  · intro k
    simp only [processRun]
    rw [List.filter_map, List.filter_map]
    exact congrArg _ (filter_sortDesc _ _ k)

/-- C8.  Boundary-mode monotonicity for adjacent constructs: when the
first construct's exclusive end offset equals the second construct's start
offset, translating the end with the Right boundary and then the start
with the Left boundary yields equal values (the second query hits the
memo entry stored by the first, whichever came first, and without a
consumer both are the identity), so the Right translation never exceeds
the Left translation. -/
theorem C8_boundary_monotone (code : List Char) (splat : List (List Char))
    (consumer : Option Consumer) (cache : Cache) (d1 d2 : Info)
    (v1 : Option Int) (c1 : Cache)
    (hadj : d1.range.2 = d2.range.1)
    (h1 : compressIndex code splat consumer cache d1.range.2 true = (v1, c1)) :
    (compressIndex code splat consumer c1 d2.range.1 false).1 = v1 ∧
    jsNum v1 ≤ jsNum (compressIndex code splat consumer c1 d2.range.1 false).1 := by
  rw [← hadj]
  cases consumer with
  | none =>
    have hv : v1 = some d1.range.2 := by
      have hfst := congrArg Prod.fst h1
      exact hfst.symm
    subst hv
    exact ⟨rfl, le_refl _⟩
  | some c =>
    have hfst := compressIndex_stable h1 (cacheLE_refl c1) false
    rw [hfst]
    exact ⟨rfl, le_refl _⟩

/-- C8 (witness).  The monotonicity statement at a concrete input: two
adjacent one-character constructs meeting at offset 1 of the two-character
text, with the identity mapping table. -/
theorem C8_boundary_monotone_witness :
    (compressIndex code2 splat2 (some idConsumer)
      [((1 : Int), some (0 : Int))] 1 false).1 = some 0 ∧
    jsNum (some 0) ≤ jsNum (compressIndex code2 splat2 (some idConsumer)
      [((1 : Int), some (0 : Int))] 1 false).1 :=
  C8_boundary_monotone code2 splat2 (some idConsumer) []
    { name := ("a$"), range := (0, 1) } { name := ("b$"), range := (1, 2) }
    (some 0) [((1 : Int), some (0 : Int))] (by decide) (by decide)

/-- C9.  Extractor contract: a program none of whose top-level statements
has the enclosing-initializer shape yields the empty sequence; and a
program with exactly one enclosing initializer yields, per direct
statement of that initializer's body, one Definition for a function
declaration (function name, full statement range), one Definition per
directly-bound identifier of a variable declaration (that declarator's own
range, destructured patterns excluded), and nothing for any other
statement kind. -/
theorem C9_extractor_contract (p : Program) :
    ((∀ s ∈ p.body, isEnclosingInitializer s = false) →
      yieldElmJsDefinitionInfos p = []) ∧
    (∀ (pre l post : List Statement),
      p.body = pre ++ Statement.expressionStatement (Expression.callExpression
        (Expression.functionExpression l)) :: post →
      (∀ s ∈ pre, isEnclosingInitializer s = false) →
      (∀ s ∈ post, isEnclosingInitializer s = false) →
      yieldElmJsDefinitionInfos p = l.flatMap specDefsOfStatement) := by
  obtain ⟨body, range⟩ := p
  constructor
  · intro h
    rw [yieldElmJsDefinitionInfos, yieldElmJsStatements_all_nil h]
    rfl
  · intro pre l post hbody hpre hpost
    have hb2 : body = pre ++ Statement.expressionStatement (Expression.callExpression
        (Expression.functionExpression l)) :: post := hbody
    rw [yieldElmJsDefinitionInfos]
    have hstmts : yieldElmJsStatements { body := body, range := range } = l := by
      rw [yieldElmJsStatements]
      show body.flatMap enclosedStatements = l
      rw [hb2, List.flatMap_append, List.flatMap_cons]
      have hn1 : pre.flatMap enclosedStatements = [] := by
        have hy := yieldElmJsStatements_all_nil (r := range) hpre
        rwa [yieldElmJsStatements] at hy
      have hn2 : post.flatMap enclosedStatements = [] := by
        have hy := yieldElmJsStatements_all_nil (r := range) hpost
        rwa [yieldElmJsStatements] at hy
      rw [hn1, hn2, List.nil_append, List.append_nil]
      rfl
    rw [hstmts]
    have hfun : (fun statement => yieldFunctionDeclarationInfo statement ++
        yieldVariableDeclarationInfos statement) = specDefsOfStatement :=
      funext per_statement_defs
    rw [hfun]

/-- C9 (witness).  The contract at concrete programs: a program with no
initializer (a control statement and a stray top-level function
declaration) yields nothing, and a program with one initializer holding
two function declarations yields exactly their per-statement definitions.
-/
theorem C9_extractor_contract_witness :
    yieldElmJsDefinitionInfos progNone = [] ∧
    yieldElmJsDefinitionInfos prog2A =
      [Statement.functionDeclaration ("a$") ((0 : Int), (10 : Int)),
       Statement.functionDeclaration ("b$") ((11 : Int), (20 : Int))].flatMap
        specDefsOfStatement := by
  constructor
  · exact (C9_extractor_contract progNone).1 (by decide)
  · exact (C9_extractor_contract prog2A).2 []
      [Statement.functionDeclaration ("a$") ((0 : Int), (10 : Int)),
       Statement.functionDeclaration ("b$") ((11 : Int), (20 : Int))] []
      rfl (by decide) (by decide)

/-- C10.  Every entry of every produced Report has a name containing a
dollar sign - the hardcoded filter runs before the sort and admits only
such names - and the attributed sum ranges over exactly the report
entries, so definitions without a dollar sign contribute nothing to it. -/
theorem C10_dollar_filter (code : List Char) (parsed : Program)
    (compressedCode : List Char) (compressedRange : Int × Int) (consumer : Consumer) :
    ((processRun code parsed compressedCode compressedRange consumer).entries.all
      (fun e => hasDollar e.1)) = true ∧
    (processRun code parsed compressedCode compressedRange consumer).rangeSum =
      ((processRun code parsed compressedCode compressedRange consumer).entries.map
        (fun e => e.2)).sum := by
  constructor
  · rw [List.all_eq_true]
    intro e he
    simp only [processRun, retainedInfos] at he
    obtain ⟨i, hi, rfl⟩ := List.mem_map.mp he
    have hspec := (filterInfos_spec code (compressedCode.splitOn '\n') consumer
        (yieldElmJsDefinitionInfos parsed) []).2
    exact (hspec i (mem_sortDesc i hi)).1
  · simp only [processRun, List.map_map]
    rfl
